import Mathlib

/-!
Shallow embedding of the numeric core of the likelihood-plot application
(emotion likelihood explorer).  The model comes from the TypeScript source:
vector helpers (`dot`, `add`, `clamp`, `clampWeights`), the allocation
enumerator `enumerateCandX`, the self/other utility `utility`, the softmax
satisfaction `satisfaction`, the piecewise emotion scorer
`emotionScoresFromS`, and the probability normalizer `scoresToProbs`.
JavaScript numbers are modelled as real numbers; the `-Infinity` initial
accumulator of the maximum loop in `satisfaction` is modelled as `none`
of an `Option ℝ` accumulator, with `Math.max(-Infinity, v) = v`.
-/

namespace LikelihoodPlot

noncomputable section

/-- Dot product: `for i < a.length, s += a[i] * b[i]`; all call sites pass
equal-length vectors, where the loop agrees with `zipWith (*)` then sum. -/
def dot (a b : List ℝ) : ℝ := (List.zipWith (fun ai bi => ai * bi) a b).sum

/-- `add(a, b, sign) = a.map((ai, i) => ai + sign * b[i])`; at equal lengths
this is the `zipWith` below. -/
def add (a b : List ℝ) (sign : ℝ) : List ℝ :=
  List.zipWith (fun ai bi => ai + sign * bi) a b

/-- `clamp(v, lo, hi) = Math.max(lo, Math.min(hi, v))`. -/
def clamp (v lo hi : ℝ) : ℝ := max lo (min hi v)

/-- Plain-clip variant: `clampWeights(w, wmax) = w.map(wi => clamp(wi, -wmax, wmax))`. -/
def clampWeights (w : List ℝ) (wmax : ℝ) : List ℝ :=
  w.map fun wi => clamp wi (-wmax) wmax

/-- `Math.round`: rounds half toward positive infinity, `⌊v + 1/2⌋`, which is
exactly Mathlib's `round` on ℝ; cast back to ℝ since JS stays in numbers. -/
def jsRound (v : ℝ) : ℝ := ((round v : ℤ) : ℝ)

/-- Integer-stepped variant of weight clamping:
`w.map(wi => Math.round(clamp(wi, -wmax, wmax)))`. -/
def clampWeightsRounded (w : List ℝ) (wmax : ℝ) : List ℝ :=
  w.map fun wi => jsRound (clamp wi (-wmax) wmax)

/-- Self/other utility:
`cos(θ) * dot(wOther, add(q, x, -1)) + sin(θ) * dot(wSelf, x)`
where `add(q, x, -1)` is the other party's share `q - x`. -/
def utility (θ : ℝ) (wSelf wOther : List ℝ) (x q : List ℝ) : ℝ :=
  Real.cos θ * dot wOther (add q x (-1)) + Real.sin θ * dot wSelf x

/-- The allocation enumerator: four nested loops
`for x1 in 0..q[0], x2 in 0..q[1], x3 in 0..q[2], x4 in 0..q[3]`,
pushing `[x1, x2, x3, x4]`, innermost index varying fastest.  The source
reads the four entries `q[0]..q[3]` of a length-4 totals array, taken here
as the four arguments. -/
def enumerateCandX (q0 q1 q2 q3 : ℕ) : List (List ℕ) :=
  (List.range (q0 + 1)).flatMap fun x1 =>
    (List.range (q1 + 1)).flatMap fun x2 =>
      (List.range (q2 + 1)).flatMap fun x3 =>
        (List.range (q3 + 1)).map fun x4 => [x1, x2, x3, x4]

/-- Coercion of an integer allocation to the real vector the arithmetic uses. -/
def toReal (x : List ℕ) : List ℝ := x.map fun n => (n : ℝ)

/-- One step of the `umax = Math.max(umax, v)` loop with the accumulator
`none` standing for the initial `-Infinity`. -/
def jsMaxStep (m : Option ℝ) (v : ℝ) : Option ℝ :=
  match m with
  | none => some v
  | some m0 => some (max m0 v)

/-- The maximum loop of `satisfaction`: fold `Math.max` from `-Infinity`. -/
def jsMax (l : List ℝ) : Option ℝ := l.foldl jsMaxStep none

/-- Softmax satisfaction
`S = exp(β * (U - Umax))` where `Umax` is the `jsMax` of the utilities of
all candidates.  The `none` branch corresponds to an empty candidate list,
where the source would compute `exp` of an infinite or NaN argument; every
caller passes the non-empty `enumerateCandX` output, so the branch is
unreachable (proved below) and its value is irrelevant. -/
def satisfaction (θ : ℝ) (wSelf wOther : List ℝ) (x : List ℕ) (q : List ℝ)
    (β : ℝ) (candX : List (List ℕ)) : ℝ :=
  match jsMax (candX.map fun xx => utility θ wSelf wOther (toReal xx) q) with
  | none => 0
  | some umax => Real.exp (β * (utility θ wSelf wOther (toReal x) q - umax))

/-- The record `{ Anger, Sad, Neutral, Joy }` of unnormalized scores (and,
after normalization, of probabilities). -/
structure EmotionScores where
  Anger : ℝ
  Sad : ℝ
  Neutral : ℝ
  Joy : ℝ

/-- Piecewise-linear emotion scores from a satisfaction value:
`anger = clamp01((tau1 - S)/tau1)`;
`sad = |S - tau1| ≤ sadBand ? 1 - |S - tau1|/sadBand : 0`;
`neutral = 0` unless `tau1 < S < tau2`, where it is
`clamp01(1 - |S - mid|/width)` with `mid = (tau1+tau2)/2`, `width = (tau2-tau1)/2`;
`joy = clamp01((S - tau2)/(1 - tau2))`. -/
def emotionScoresFromS (S tau1 tau2 sadBand : ℝ) : EmotionScores :=
  { Anger := clamp ((tau1 - S) / tau1) 0 1
    Sad := if |S - tau1| ≤ sadBand then 1 - |S - tau1| / sadBand else 0
    Neutral :=
      if tau1 < S ∧ S < tau2 then
        clamp (1 - |S - (tau1 + tau2) / 2| / ((tau2 - tau1) / 2)) 0 1
      else 0
    Joy := clamp ((S - tau2) / (1 - tau2)) 0 1 }

/-- The source's default smoothing constant `eps = 1e-9`. -/
def epsDefault : ℝ := 1e-9

/-- Probability normalization
`P_k = (score_k + eps) / ((Anger+eps)+(Sad+eps)+(Neutral+eps)+(Joy+eps))`. -/
def scoresToProbs (s : EmotionScores) (eps : ℝ) : EmotionScores :=
  { Anger := (s.Anger + eps) /
      ((s.Anger + eps) + (s.Sad + eps) + (s.Neutral + eps) + (s.Joy + eps))
    Sad := (s.Sad + eps) /
      ((s.Anger + eps) + (s.Sad + eps) + (s.Neutral + eps) + (s.Joy + eps))
    Neutral := (s.Neutral + eps) /
      ((s.Anger + eps) + (s.Sad + eps) + (s.Neutral + eps) + (s.Joy + eps))
    Joy := (s.Joy + eps) /
      ((s.Anger + eps) + (s.Sad + eps) + (s.Neutral + eps) + (s.Joy + eps)) }

/-! ### Helper lemmas about the maximum loop -/

lemma jsMax_go (l : List ℝ) (a : ℝ) :
    l.foldl jsMaxStep (some a) = some (l.foldl max a) := by
  induction l generalizing a with
  | nil => rfl
  | cons h t ih => simp [jsMaxStep, ih]

lemma jsMax_cons (h : ℝ) (t : List ℝ) :
    jsMax (h :: t) = some (t.foldl max h) := by
  simp [jsMax, List.foldl_cons, jsMaxStep, jsMax_go]

lemma le_foldl_max (l : List ℝ) (a : ℝ) : a ≤ l.foldl max a := by
  induction l generalizing a with
  | nil => exact le_refl a
  | cons h t ih => exact le_trans (le_max_left a h) (ih (max a h))

lemma foldl_max_mono (l : List ℝ) {a b : ℝ} (hab : a ≤ b) :
    l.foldl max a ≤ l.foldl max b := by
  induction l generalizing a b with
  | nil => exact hab
  | cons h t ih => exact ih (max_le_max hab (le_refl h))

lemma mem_le_foldl_max (l : List ℝ) (a : ℝ) {v : ℝ} (hv : v ∈ l) :
    v ≤ l.foldl max a := by
  induction l generalizing a with
  | nil => cases hv
  | cons h t ih =>
    rcases List.mem_cons.mp hv with rfl | hmem
    · exact le_trans (le_max_right a v) (le_foldl_max t (max a v))
    · exact ih (max a h) hmem

lemma foldl_max_mem (l : List ℝ) (a : ℝ) :
    l.foldl max a = a ∨ l.foldl max a ∈ l := by
  induction l generalizing a with
  | nil => exact Or.inl rfl
  | cons h t ih =>
    rcases ih (max a h) with heq | hmem
    · rcases max_choice a h with hc | hc
      · exact Or.inl (by rw [List.foldl_cons, heq, hc])
      · exact Or.inr (by rw [List.foldl_cons, heq, hc]; exact List.mem_cons_self h t)
    · exact Or.inr (List.mem_cons_of_mem h hmem)

lemma jsMax_spec {l : List ℝ} (hne : l ≠ []) :
    ∃ m, jsMax l = some m ∧ m ∈ l ∧ ∀ v ∈ l, v ≤ m := by
  cases l with
  | nil => exact absurd rfl hne
  | cons h t =>
    refine ⟨t.foldl max h, jsMax_cons h t, ?_, ?_⟩
    · rcases foldl_max_mem t h with heq | hmem
      · rw [heq]; exact List.mem_cons_self h t
      · exact List.mem_cons_of_mem h hmem
    · intro v hv
      rcases List.mem_cons.mp hv with rfl | hmem
      · exact le_foldl_max t v
      · exact mem_le_foldl_max t h hmem

/-! ### Membership and shape of the enumerated candidate set -/

lemma mem_enumerateCandX (q0 q1 q2 q3 : ℕ) (y : List ℕ) :
    y ∈ enumerateCandX q0 q1 q2 q3 ↔
      ∃ a b c d, y = [a, b, c, d] ∧ a ≤ q0 ∧ b ≤ q1 ∧ c ≤ q2 ∧ d ≤ q3 := by
  simp only [enumerateCandX, List.mem_flatMap, List.mem_map, List.mem_range,
    Nat.lt_succ_iff]
  constructor
  · rintro ⟨a, ha, b, hb, c, hc, d, hd, rfl⟩
    exact ⟨a, b, c, d, rfl, ha, hb, hc, hd⟩
  · rintro ⟨a, b, c, d, rfl, ha, hb, hc, hd⟩
    exact ⟨a, ha, b, hb, c, hc, d, hd, rfl⟩

lemma zero_mem_enumerateCandX (q0 q1 q2 q3 : ℕ) :
    [0, 0, 0, 0] ∈ enumerateCandX q0 q1 q2 q3 :=
  (mem_enumerateCandX q0 q1 q2 q3 _).mpr
    ⟨0, 0, 0, 0, rfl, Nat.zero_le q0, Nat.zero_le q1, Nat.zero_le q2, Nat.zero_le q3⟩

lemma enumerateCandX_ne_nil (q0 q1 q2 q3 : ℕ) :
    enumerateCandX q0 q1 q2 q3 ≠ [] :=
  List.ne_nil_of_mem (zero_mem_enumerateCandX q0 q1 q2 q3)

lemma sum_map_const {α : Type} (l : List α) (c : ℕ) :
    (l.map fun _ => c).sum = l.length * c := by
  induction l with
  | nil => simp
  | cons h t ih => simp [ih, Nat.succ_mul, Nat.add_comm]

lemma length_enumerateCandX (q0 q1 q2 q3 : ℕ) :
    (enumerateCandX q0 q1 q2 q3).length = (q0 + 1) * (q1 + 1) * (q2 + 1) * (q3 + 1) := by
  simp only [enumerateCandX, List.length_flatMap, Function.comp_def, List.length_map,
    List.length_range]
  simp only [sum_map_const, List.length_range]
  ring

lemma nodup_enum_inner (x1 x2 x3 n : ℕ) :
    ((List.range n).map fun x4 => [x1, x2, x3, x4]).Nodup := by
  refine List.Nodup.map ?_ (List.nodup_range n)
  intro a b hab
  simpa using hab

lemma nodup_enum_l3 (x1 x2 n3 n4 : ℕ) :
    ((List.range n3).flatMap fun x3 =>
      (List.range n4).map fun x4 => [x1, x2, x3, x4]).Nodup := by
  rw [List.nodup_flatMap]
  refine ⟨fun x3 _ => nodup_enum_inner x1 x2 x3 n4, ?_⟩
  refine List.Pairwise.imp ?_ (List.nodup_range n3)
  intro a b hab y hya hyb
  simp only [List.mem_map, List.mem_range] at hya hyb
  obtain ⟨x4, _, rfl⟩ := hya
  obtain ⟨x4b, _, heq⟩ := hyb
  simp only [List.cons.injEq] at heq
  exact hab heq.2.2.1.symm

lemma nodup_enum_l2 (x1 n2 n3 n4 : ℕ) :
    ((List.range n2).flatMap fun x2 =>
      (List.range n3).flatMap fun x3 =>
        (List.range n4).map fun x4 => [x1, x2, x3, x4]).Nodup := by
  rw [List.nodup_flatMap]
  refine ⟨fun x2 _ => nodup_enum_l3 x1 x2 n3 n4, ?_⟩
  refine List.Pairwise.imp ?_ (List.nodup_range n2)
  intro a b hab y hya hyb
  simp only [List.mem_flatMap, List.mem_map, List.mem_range] at hya hyb
  obtain ⟨x3, _, x4, _, rfl⟩ := hya
  obtain ⟨x3b, _, x4b, _, heq⟩ := hyb
  simp only [List.cons.injEq] at heq
  exact hab heq.2.1.symm

lemma nodup_enumerateCandX (q0 q1 q2 q3 : ℕ) :
    (enumerateCandX q0 q1 q2 q3).Nodup := by
  rw [enumerateCandX, List.nodup_flatMap]
  refine ⟨fun x1 _ => nodup_enum_l2 x1 (q1 + 1) (q2 + 1) (q3 + 1), ?_⟩
  refine List.Pairwise.imp ?_ (List.nodup_range (q0 + 1))
  intro a b hab y hya hyb
  simp only [List.mem_flatMap, List.mem_map, List.mem_range] at hya hyb
  obtain ⟨x2, _, x3, _, x4, _, rfl⟩ := hya
  obtain ⟨x2b, _, x3b, _, x4b, _, heq⟩ := hyb
  simp only [List.cons.injEq] at heq
  exact hab heq.1.symm

/-- C1: the utility function returns `cos θ * ⟨w_other, q - x⟩ + sin θ * ⟨w_self, x⟩`:
the source expression `cos(θ)·dot(wOther, add(q, x, -1)) + sin(θ)·dot(wSelf, x)`
equals the spec formula with the element-wise difference `q - x`. -/
theorem utility_eq_spec_formula (θ : ℝ) (wSelf wOther x q : List ℝ) :
    utility θ wSelf wOther x q =
      Real.cos θ * dot wOther (List.zipWith (fun qi xi => qi - xi) q x) +
        Real.sin θ * dot wSelf x := by
  have h : (fun (ai bi : ℝ) => ai + (-1) * bi) = fun qi xi => qi - xi := by
    funext a b; ring
  rw [utility, add, h]

/-- C4: the allocation enumerator returns exactly the Cartesian product
`{0..q0} × {0..q1} × {0..q2} × {0..q3}`: its size is the product of the
`q_i + 1`, its entries are pairwise distinct, and membership holds exactly
for the four-component allocations within the bounds. -/
theorem enumerateCandX_cartesian_product (q0 q1 q2 q3 : ℕ) :
    (enumerateCandX q0 q1 q2 q3).length = (q0 + 1) * (q1 + 1) * (q2 + 1) * (q3 + 1) ∧
    (enumerateCandX q0 q1 q2 q3).Nodup ∧
    (∀ y, y ∈ enumerateCandX q0 q1 q2 q3 ↔
      ∃ a b c d, y = [a, b, c, d] ∧ a ≤ q0 ∧ b ≤ q1 ∧ c ≤ q2 ∧ d ≤ q3) :=
  ⟨length_enumerateCandX q0 q1 q2 q3, nodup_enumerateCandX q0 q1 q2 q3,
    mem_enumerateCandX q0 q1 q2 q3⟩

lemma satisfaction_umax_spec (θ β : ℝ) (wSelf wOther q : List ℝ)
    (q0 q1 q2 q3 : ℕ) (x : List ℕ) :
    ∃ m : ℝ,
      jsMax ((enumerateCandX q0 q1 q2 q3).map fun xx =>
        utility θ wSelf wOther (toReal xx) q) = some m ∧
      (∃ y ∈ enumerateCandX q0 q1 q2 q3, m = utility θ wSelf wOther (toReal y) q) ∧
      (∀ y ∈ enumerateCandX q0 q1 q2 q3, utility θ wSelf wOther (toReal y) q ≤ m) ∧
      satisfaction θ wSelf wOther x q β (enumerateCandX q0 q1 q2 q3) =
        Real.exp (β * (utility θ wSelf wOther (toReal x) q - m)) := by
  obtain ⟨m, hm, hmem, hle⟩ := jsMax_spec
    (l := (enumerateCandX q0 q1 q2 q3).map fun xx => utility θ wSelf wOther (toReal xx) q)
    (fun h => enumerateCandX_ne_nil q0 q1 q2 q3 (List.map_eq_nil_iff.mp h))
  refine ⟨m, hm, ?_, ?_, ?_⟩
  · obtain ⟨y, hy, hey⟩ := List.mem_map.mp hmem
    exact ⟨y, hy, hey.symm⟩
  · intro y hy
    exact hle _ (List.mem_map.mpr ⟨y, hy, rfl⟩)
  · simp only [satisfaction, hm]

/-- C5: the candidate set always contains the origin allocation and is
non-empty, so the `-Infinity` accumulator of the maximum loop inside
`satisfaction` is always replaced by the utility of an actual candidate,
and `satisfaction` returns the exponential of `β` times the utility gap. -/
theorem enumerateCandX_nonempty_umax_attained (θ β : ℝ) (wSelf wOther q : List ℝ)
    (q0 q1 q2 q3 : ℕ) (x : List ℕ) :
    [0, 0, 0, 0] ∈ enumerateCandX q0 q1 q2 q3 ∧
    enumerateCandX q0 q1 q2 q3 ≠ [] ∧
    ∃ m : ℝ,
      jsMax ((enumerateCandX q0 q1 q2 q3).map fun xx =>
        utility θ wSelf wOther (toReal xx) q) = some m ∧
      (∃ y ∈ enumerateCandX q0 q1 q2 q3, m = utility θ wSelf wOther (toReal y) q) ∧
      satisfaction θ wSelf wOther x q β (enumerateCandX q0 q1 q2 q3) =
        Real.exp (β * (utility θ wSelf wOther (toReal x) q - m)) := by
  refine ⟨zero_mem_enumerateCandX q0 q1 q2 q3, enumerateCandX_ne_nil q0 q1 q2 q3, ?_⟩
  obtain ⟨m, hm, hmem, -, hsat⟩ := satisfaction_umax_spec θ β wSelf wOther q q0 q1 q2 q3 x
  exact ⟨m, hm, hmem, hsat⟩

/-- C2 (amended): for every allocation in the enumerated candidate set and
every `β ≥ 0`, `satisfaction` lies in `(0, 1]`; when moreover `β > 0`, it
equals `1` exactly when the allocation attains the maximum utility over the
candidate set.  (At `β = 0` the satisfaction is `1` for every allocation,
maximizer or not, so the equivalence needs `β > 0`.) -/
theorem satisfaction_unit_interval_and_argmax (θ β : ℝ) (wSelf wOther q : List ℝ)
    (q0 q1 q2 q3 : ℕ) (x : List ℕ)
    (hx : x ∈ enumerateCandX q0 q1 q2 q3) (hβ : 0 ≤ β) :
    0 < satisfaction θ wSelf wOther x q β (enumerateCandX q0 q1 q2 q3) ∧
    satisfaction θ wSelf wOther x q β (enumerateCandX q0 q1 q2 q3) ≤ 1 ∧
    (0 < β →
      (satisfaction θ wSelf wOther x q β (enumerateCandX q0 q1 q2 q3) = 1 ↔
        ∀ y ∈ enumerateCandX q0 q1 q2 q3,
          utility θ wSelf wOther (toReal y) q ≤ utility θ wSelf wOther (toReal x) q)) := by
  obtain ⟨m, -, ⟨y0, hy0, hy0e⟩, hub, hsat⟩ :=
    satisfaction_umax_spec θ β wSelf wOther q q0 q1 q2 q3 x
  have hxm : utility θ wSelf wOther (toReal x) q ≤ m := hub x hx
  have hgap : β * (utility θ wSelf wOther (toReal x) q - m) ≤ 0 :=
    mul_nonpos_iff.mpr (Or.inl ⟨hβ, sub_nonpos.mpr hxm⟩)
  refine ⟨hsat ▸ Real.exp_pos _, hsat ▸ Real.exp_le_one_iff.mpr hgap, ?_⟩
  intro hβpos
  rw [hsat, Real.exp_eq_one_iff, mul_eq_zero, sub_eq_zero]
  constructor
  · rintro (h | h)
    · exact absurd h (ne_of_gt hβpos)
    · intro y hy
      exact h ▸ hub y hy
  · intro h
    refine Or.inr (le_antisymm hxm ?_)
    exact hy0e ▸ h y0 hy0

/-- Witness for the amended C2 at a concrete input. -/
theorem satisfaction_unit_interval_and_argmax_witness :
    [0, 0, 0, 0] ∈ enumerateCandX 0 0 0 0 ∧ (0 : ℝ) ≤ 1 ∧
    (0 < satisfaction 0 [] [] [0, 0, 0, 0] [] 1 (enumerateCandX 0 0 0 0) ∧
      satisfaction 0 [] [] [0, 0, 0, 0] [] 1 (enumerateCandX 0 0 0 0) ≤ 1 ∧
      (0 < (1 : ℝ) →
        (satisfaction 0 [] [] [0, 0, 0, 0] [] 1 (enumerateCandX 0 0 0 0) = 1 ↔
          ∀ y ∈ enumerateCandX 0 0 0 0,
            utility 0 [] [] (toReal y) [] ≤ utility 0 [] [] (toReal [0, 0, 0, 0]) []))) :=
  ⟨by decide, by norm_num,
    satisfaction_unit_interval_and_argmax 0 1 [] [] [] 0 0 0 0 [0, 0, 0, 0]
      (by decide) (by norm_num)⟩

lemma u_zero_eval :
    utility 0 [0, 0, 0, 0] [1, 0, 0, 0] (toReal [0, 0, 0, 0]) [1, 0, 0, 0] = 1 := by
  norm_num [utility, dot, add, toReal]

lemma u_one_eval :
    utility 0 [0, 0, 0, 0] [1, 0, 0, 0] (toReal [1, 0, 0, 0]) [1, 0, 0, 0] = 0 := by
  norm_num [utility, dot, add, toReal]

lemma concrete_sat_eval (β : ℝ) :
    satisfaction 0 [0, 0, 0, 0] [1, 0, 0, 0] [1, 0, 0, 0] [1, 0, 0, 0] β
      (enumerateCandX 1 0 0 0) = Real.exp (β * (0 - 1)) := by
  have henum : enumerateCandX 1 0 0 0 = [[0, 0, 0, 0], [1, 0, 0, 0]] := by decide
  rw [satisfaction, henum]
  simp only [List.map_cons, List.map_nil, u_zero_eval, u_one_eval, jsMax, List.foldl_cons,
    List.foldl_nil, jsMaxStep]
  norm_num

/-- Counterexample to C2 as stated: at `β = 0` the satisfaction of a
non-maximizing candidate allocation is still `1`, so `S = 1` does not imply
that the allocation attains the maximum when `β` is only assumed `≥ 0`. -/
theorem satisfaction_beta_zero_counterexample :
    (0 : ℝ) ≤ 0 ∧
    [1, 0, 0, 0] ∈ enumerateCandX 1 0 0 0 ∧
    satisfaction 0 [0, 0, 0, 0] [1, 0, 0, 0] [1, 0, 0, 0] [1, 0, 0, 0] 0
      (enumerateCandX 1 0 0 0) = 1 ∧
    [0, 0, 0, 0] ∈ enumerateCandX 1 0 0 0 ∧
    utility 0 [0, 0, 0, 0] [1, 0, 0, 0] (toReal [1, 0, 0, 0]) [1, 0, 0, 0] <
      utility 0 [0, 0, 0, 0] [1, 0, 0, 0] (toReal [0, 0, 0, 0]) [1, 0, 0, 0] := by
  refine ⟨le_refl 0, by decide, ?_, by decide, by rw [u_zero_eval, u_one_eval]; norm_num⟩
  rw [concrete_sat_eval]
  norm_num

/-! ### Emotion scores and probability normalization -/

lemma epsDefault_pos : (0 : ℝ) < epsDefault := by norm_num [epsDefault]

/-- C3: with the source's `eps = 1e-9`, the normalizer returns
`P_k = (score_k + eps) / Σ_j (score_j + eps)`; on non-negative scores all
four probabilities are strictly between 0 and 1 and sum to 1, and when all
four raw scores are 0 the result is the uniform distribution. -/
theorem scoresToProbs_simplex (s : EmotionScores)
    (hA : 0 ≤ s.Anger) (hS : 0 ≤ s.Sad) (hN : 0 ≤ s.Neutral) (hJ : 0 ≤ s.Joy) :
    (scoresToProbs s epsDefault).Anger = (s.Anger + epsDefault) /
      ((s.Anger + epsDefault) + (s.Sad + epsDefault) + (s.Neutral + epsDefault) +
        (s.Joy + epsDefault)) ∧
    (scoresToProbs s epsDefault).Sad = (s.Sad + epsDefault) /
      ((s.Anger + epsDefault) + (s.Sad + epsDefault) + (s.Neutral + epsDefault) +
        (s.Joy + epsDefault)) ∧
    (scoresToProbs s epsDefault).Neutral = (s.Neutral + epsDefault) /
      ((s.Anger + epsDefault) + (s.Sad + epsDefault) + (s.Neutral + epsDefault) +
        (s.Joy + epsDefault)) ∧
    (scoresToProbs s epsDefault).Joy = (s.Joy + epsDefault) /
      ((s.Anger + epsDefault) + (s.Sad + epsDefault) + (s.Neutral + epsDefault) +
        (s.Joy + epsDefault)) ∧
    (0 < (scoresToProbs s epsDefault).Anger ∧ (scoresToProbs s epsDefault).Anger < 1) ∧
    (0 < (scoresToProbs s epsDefault).Sad ∧ (scoresToProbs s epsDefault).Sad < 1) ∧
    (0 < (scoresToProbs s epsDefault).Neutral ∧ (scoresToProbs s epsDefault).Neutral < 1) ∧
    (0 < (scoresToProbs s epsDefault).Joy ∧ (scoresToProbs s epsDefault).Joy < 1) ∧
    (scoresToProbs s epsDefault).Anger + (scoresToProbs s epsDefault).Sad +
      (scoresToProbs s epsDefault).Neutral + (scoresToProbs s epsDefault).Joy = 1 ∧
    (s.Anger = 0 ∧ s.Sad = 0 ∧ s.Neutral = 0 ∧ s.Joy = 0 →
      scoresToProbs s epsDefault = ⟨1/4, 1/4, 1/4, 1/4⟩) := by
  obtain ⟨a, b, c, d⟩ := s
  simp only [scoresToProbs] at hA hS hN hJ ⊢
  have he : (0 : ℝ) < epsDefault := epsDefault_pos
  have hT : 0 < (a + epsDefault) + (b + epsDefault) + (c + epsDefault) + (d + epsDefault) := by
    linarith
  refine ⟨trivial, trivial, trivial, trivial, ?_, ?_, ?_, ?_, ?_, ?_⟩
  · exact ⟨div_pos (by linarith) hT, (div_lt_one hT).mpr (by linarith)⟩
  · exact ⟨div_pos (by linarith) hT, (div_lt_one hT).mpr (by linarith)⟩
  · exact ⟨div_pos (by linarith) hT, (div_lt_one hT).mpr (by linarith)⟩
  · exact ⟨div_pos (by linarith) hT, (div_lt_one hT).mpr (by linarith)⟩
  · rw [div_add_div_same, div_add_div_same, div_add_div_same]
    exact div_self (ne_of_gt hT)
  · rintro ⟨rfl, rfl, rfl, rfl⟩
    simp only [EmotionScores.mk.injEq, zero_add]
    norm_num [epsDefault]

/-- Witness for C3 at the all-zero score record. -/
theorem scoresToProbs_simplex_witness :
    (0 : ℝ) ≤ (0 : ℝ) ∧
    (scoresToProbs ⟨0, 0, 0, 0⟩ epsDefault).Anger + (scoresToProbs ⟨0, 0, 0, 0⟩ epsDefault).Sad +
      (scoresToProbs ⟨0, 0, 0, 0⟩ epsDefault).Neutral +
      (scoresToProbs ⟨0, 0, 0, 0⟩ epsDefault).Joy = 1 ∧
    scoresToProbs ⟨0, 0, 0, 0⟩ epsDefault = ⟨1/4, 1/4, 1/4, 1/4⟩ := by
  obtain ⟨-, -, -, -, -, -, -, -, hsum, huni⟩ :=
    scoresToProbs_simplex ⟨0, 0, 0, 0⟩ (le_refl 0) (le_refl 0) (le_refl 0) (le_refl 0)
  exact ⟨le_refl 0, hsum, huni ⟨rfl, rfl, rfl, rfl⟩⟩

/-- C7: at `S = tau1` the scorer yields `Sad = 1` and `Anger = 0`; at
`S = tau2` it yields `Joy = 0`. -/
theorem emotionScores_boundary (tau1 tau2 sadBand : ℝ)
    (h1 : 0 < tau1) (h12 : tau1 < tau2) (h2 : tau2 < 1) (hb : 0 < sadBand) :
    (emotionScoresFromS tau1 tau1 tau2 sadBand).Sad = 1 ∧
    (emotionScoresFromS tau1 tau1 tau2 sadBand).Anger = 0 ∧
    (emotionScoresFromS tau2 tau1 tau2 sadBand).Joy = 0 := by
  refine ⟨?_, ?_, ?_⟩
  · simp [emotionScoresFromS, sub_self, abs_zero, hb.le]
  · simp [emotionScoresFromS, clamp, sub_self, zero_div]
  · simp [emotionScoresFromS, clamp, sub_self, zero_div]

/-- Witness for C7 at the reference thresholds. -/
theorem emotionScores_boundary_witness :
    (0 : ℝ) < 2/5 ∧ (2/5 : ℝ) < 7/10 ∧ (7/10 : ℝ) < 1 ∧ (0 : ℝ) < 1/50 ∧
    (emotionScoresFromS (2/5) (2/5) (7/10) (1/50)).Sad = 1 ∧
    (emotionScoresFromS (2/5) (2/5) (7/10) (1/50)).Anger = 0 ∧
    (emotionScoresFromS (7/10) (2/5) (7/10) (1/50)).Joy = 0 := by
  have h := emotionScores_boundary (2/5) (7/10) (1/50)
    (by norm_num) (by norm_num) (by norm_num) (by norm_num)
  exact ⟨by norm_num, by norm_num, by norm_num, by norm_num, h.1, h.2.1, h.2.2⟩

lemma clamp01_nonneg (v : ℝ) : 0 ≤ clamp v 0 1 := le_max_left 0 _

lemma clamp01_le_one (v : ℝ) : clamp v 0 1 ≤ 1 :=
  max_le zero_le_one (min_le_left 1 v)

/-- C10: the emotion scorer is total and, for every real input `S`
(inside `(0,1]` or not) and thresholds `0 < tau1 < tau2 < 1`,
`sad_band > 0`, all four scores lie in `[0, 1]`. -/
theorem emotionScores_in_unit_interval (S tau1 tau2 sadBand : ℝ)
    (h1 : 0 < tau1) (h12 : tau1 < tau2) (h2 : tau2 < 1) (hb : 0 < sadBand) :
    (0 ≤ (emotionScoresFromS S tau1 tau2 sadBand).Anger ∧
      (emotionScoresFromS S tau1 tau2 sadBand).Anger ≤ 1) ∧
    (0 ≤ (emotionScoresFromS S tau1 tau2 sadBand).Sad ∧
      (emotionScoresFromS S tau1 tau2 sadBand).Sad ≤ 1) ∧
    (0 ≤ (emotionScoresFromS S tau1 tau2 sadBand).Neutral ∧
      (emotionScoresFromS S tau1 tau2 sadBand).Neutral ≤ 1) ∧
    (0 ≤ (emotionScoresFromS S tau1 tau2 sadBand).Joy ∧
      (emotionScoresFromS S tau1 tau2 sadBand).Joy ≤ 1) := by
  refine ⟨⟨clamp01_nonneg _, clamp01_le_one _⟩, ?_, ?_,
    ⟨clamp01_nonneg _, clamp01_le_one _⟩⟩
  · simp only [emotionScoresFromS]
    split_ifs with h
    · have hdiv : |S - tau1| / sadBand ≤ 1 := (div_le_one hb).mpr h
      have hdiv0 : 0 ≤ |S - tau1| / sadBand := div_nonneg (abs_nonneg _) hb.le
      constructor <;> linarith
    · exact ⟨le_refl 0, zero_le_one⟩
  · simp only [emotionScoresFromS]
    split_ifs with h
    · exact ⟨clamp01_nonneg _, clamp01_le_one _⟩
    · exact ⟨le_refl 0, zero_le_one⟩

/-- Witness for C10 at an input outside `(0, 1]`. -/
theorem emotionScores_in_unit_interval_witness :
    (0 : ℝ) < 2/5 ∧ (2/5 : ℝ) < 7/10 ∧ (7/10 : ℝ) < 1 ∧ (0 : ℝ) < 1/50 ∧
    (0 ≤ (emotionScoresFromS 5 (2/5) (7/10) (1/50)).Anger ∧
      (emotionScoresFromS 5 (2/5) (7/10) (1/50)).Anger ≤ 1) ∧
    (0 ≤ (emotionScoresFromS 5 (2/5) (7/10) (1/50)).Sad ∧
      (emotionScoresFromS 5 (2/5) (7/10) (1/50)).Sad ≤ 1) ∧
    (0 ≤ (emotionScoresFromS 5 (2/5) (7/10) (1/50)).Neutral ∧
      (emotionScoresFromS 5 (2/5) (7/10) (1/50)).Neutral ≤ 1) ∧
    (0 ≤ (emotionScoresFromS 5 (2/5) (7/10) (1/50)).Joy ∧
      (emotionScoresFromS 5 (2/5) (7/10) (1/50)).Joy ≤ 1) := by
  have h := emotionScores_in_unit_interval 5 (2/5) (7/10) (1/50)
    (by norm_num) (by norm_num) (by norm_num) (by norm_num)
  exact ⟨by norm_num, by norm_num, by norm_num, by norm_num, h.1, h.2.1, h.2.2.1, h.2.2.2⟩

/-! ### Weight clamping -/

lemma lo_le_clamp (v lo hi : ℝ) : lo ≤ clamp v lo hi := le_max_left lo _

lemma clamp_le_hi {lo hi : ℝ} (v : ℝ) (h : lo ≤ hi) : clamp v lo hi ≤ hi :=
  max_le h (min_le_left hi v)

lemma clamp_of_mem {v lo hi : ℝ} (h1 : lo ≤ v) (h2 : v ≤ hi) : clamp v lo hi = v := by
  rw [clamp, min_eq_right h2, max_eq_right h1]

lemma clamp_clamp (v lo hi : ℝ) : clamp (clamp v lo hi) lo hi = clamp v lo hi := by
  rcases le_total lo hi with h | h
  · exact clamp_of_mem (lo_le_clamp v lo hi) (clamp_le_hi _ h)
  · have h1 : clamp v lo hi = lo := max_eq_left (le_trans (min_le_left hi v) h)
    rw [h1, clamp, min_eq_left h, max_eq_left h]

lemma round_mono_le {x y : ℝ} (h : x ≤ y) : round x ≤ round y := by
  rw [round_eq, round_eq]
  exact Int.floor_mono (by linarith)

/-- C9: weight clamping is idempotent for every bound, both in the plain
variant and in the integer-rounding variant. -/
theorem clampWeights_idempotent (w : List ℝ) (m : ℝ) :
    clampWeights (clampWeights w m) m = clampWeights w m ∧
    clampWeightsRounded (clampWeightsRounded w m) m = clampWeightsRounded w m := by
  constructor
  · simp only [clampWeights, List.map_map]
    refine List.map_congr_left fun a _ => ?_
    exact clamp_clamp a (-m) m
  · simp only [clampWeightsRounded, List.map_map]
    refine List.map_congr_left fun a _ => ?_
    show jsRound (clamp (jsRound (clamp a (-m) m)) (-m) m) = jsRound (clamp a (-m) m)
    rcases lt_or_le m 0 with hm | hm
    · have hconst : ∀ u : ℝ, clamp u (-m) m = -m := fun u =>
        max_eq_left (le_trans (min_le_left m u) (by linarith))
      rw [hconst, hconst]
    · have hub : clamp a (-m) m ≤ m := clamp_le_hi a (by linarith)
      have hlb : -m ≤ clamp a (-m) m := lo_le_clamp a (-m) m
      rcases lt_or_le ((round (clamp a (-m) m) : ℤ) : ℝ) (-m) with hc1 | hc1
      · have hcl : clamp ((round (clamp a (-m) m) : ℤ) : ℝ) (-m) m = -m := by
          rw [clamp, min_eq_right (le_trans hc1.le (by linarith)), max_eq_left hc1.le]
        have hmono : round (-m) ≤ round (clamp a (-m) m) := round_mono_le hlb
        have hup : round (clamp a (-m) m) ≤ round (-m) := by
          have hb2 := (abs_le.mp (abs_sub_round (-m))).2
          have hlt : ((round (clamp a (-m) m) : ℤ) : ℝ) < ((round (-m) : ℤ) : ℝ) + 1 := by
            linarith
          exact Int.lt_add_one_iff.mp (by exact_mod_cast hlt)
        show jsRound (clamp ((round (clamp a (-m) m) : ℤ) : ℝ) (-m) m) = _
        rw [hcl]
        simp only [jsRound]
        exact_mod_cast le_antisymm hmono hup
      · rcases le_or_lt ((round (clamp a (-m) m) : ℤ) : ℝ) m with hc2 | hc2
        · have hcl : clamp ((round (clamp a (-m) m) : ℤ) : ℝ) (-m) m =
              ((round (clamp a (-m) m) : ℤ) : ℝ) := clamp_of_mem hc1 hc2
          show jsRound (clamp ((round (clamp a (-m) m) : ℤ) : ℝ) (-m) m) = _
          rw [hcl, jsRound, round_intCast]
          rfl
        · have hcl : clamp ((round (clamp a (-m) m) : ℤ) : ℝ) (-m) m = m := by
            rw [clamp, min_eq_left hc2.le, max_eq_right (by linarith)]
          have hmono : round (clamp a (-m) m) ≤ round m := round_mono_le hub
          have hup : round m ≤ round (clamp a (-m) m) := by
            have hb1 := (abs_le.mp (abs_sub_round m)).1
            have hlt : ((round m : ℤ) : ℝ) < ((round (clamp a (-m) m) : ℤ) : ℝ) + 1 := by
              linarith
            exact Int.lt_add_one_iff.mp (by exact_mod_cast hlt)
          show jsRound (clamp ((round (clamp a (-m) m) : ℤ) : ℝ) (-m) m) = _
          rw [hcl]
          simp only [jsRound]
          exact_mod_cast le_antisymm hup hmono

/-- C8 (amended): every component of the plain-clip `clampWeights` lies in
`[-w_max, w_max]` whenever `w_max ≥ 0`; for the variant that additionally
rounds each component to the nearest integer, the same range holds when
`w_max` is a non-negative integer.  (For fractional `w_max` the rounding can
leave the interval, see the counterexample.) -/
theorem clampWeights_within_bound (w : List ℝ) (wmax : ℝ) (hmax : 0 ≤ wmax) (n : ℕ) :
    (∀ v ∈ clampWeights w wmax, -wmax ≤ v ∧ v ≤ wmax) ∧
    (∀ v ∈ clampWeightsRounded w (n : ℝ), -(n : ℝ) ≤ v ∧ v ≤ (n : ℝ)) := by
  constructor
  · intro v hv
    obtain ⟨wi, -, rfl⟩ := List.mem_map.mp hv
    exact ⟨lo_le_clamp wi (-wmax) wmax, clamp_le_hi wi (by linarith)⟩
  · intro v hv
    obtain ⟨wi, -, rfl⟩ := List.mem_map.mp hv
    have hn : (0 : ℝ) ≤ (n : ℝ) := Nat.cast_nonneg n
    have hlo : -(n : ℝ) ≤ clamp wi (-(n : ℝ)) (n : ℝ) := lo_le_clamp wi _ _
    have hhi : clamp wi (-(n : ℝ)) (n : ℝ) ≤ (n : ℝ) := clamp_le_hi wi (by linarith)
    have e1 : round (-(n : ℝ)) = -(n : ℤ) := by
      rw [show (-(n : ℝ)) = (((-(n : ℤ)) : ℤ) : ℝ) by push_cast; ring, round_intCast]
    have e2 : round ((n : ℝ)) = (n : ℤ) := by
      rw [show ((n : ℝ)) = (((n : ℤ) : ℤ) : ℝ) by push_cast; ring, round_intCast]
    have h1 : -(n : ℤ) ≤ round (clamp wi (-(n : ℝ)) (n : ℝ)) := e1 ▸ round_mono_le hlo
    have h2 : round (clamp wi (-(n : ℝ)) (n : ℝ)) ≤ (n : ℤ) := e2 ▸ round_mono_le hhi
    constructor
    · show -(n : ℝ) ≤ jsRound (clamp wi (-(n : ℝ)) (n : ℝ))
      rw [jsRound]
      exact_mod_cast h1
    · show jsRound (clamp wi (-(n : ℝ)) (n : ℝ)) ≤ (n : ℝ)
      rw [jsRound]
      exact_mod_cast h2

/-- Witness for the amended C8 at concrete weights and bounds. -/
theorem clampWeights_within_bound_witness :
    (0 : ℝ) ≤ 1/2 ∧
    ((∀ v ∈ clampWeights [(2 : ℝ), -3/4] (1/2), -(1/2 : ℝ) ≤ v ∧ v ≤ (1/2 : ℝ)) ∧
      (∀ v ∈ clampWeightsRounded [(2 : ℝ), -3/4] ((1 : ℕ) : ℝ),
        -((1 : ℕ) : ℝ) ≤ v ∧ v ≤ ((1 : ℕ) : ℝ))) :=
  ⟨by norm_num, clampWeights_within_bound [2, -3/4] (1/2) (by norm_num) 1⟩

/-- Counterexample to C8 as stated: with the fractional bound
`w_max = 1/2` and weight `1/2`, the rounding variant returns `1`, which is
outside `[-1/2, 1/2]`. -/
theorem clampWeightsRounded_leaves_range :
    (0 : ℝ) ≤ 1/2 ∧
    clampWeightsRounded [(1 : ℝ)/2] (1/2) = [1] ∧
    ¬ (∀ v ∈ clampWeightsRounded [(1 : ℝ)/2] (1/2), -(1/2 : ℝ) ≤ v ∧ v ≤ (1/2 : ℝ)) := by
  have hr : jsRound (clamp ((1 : ℝ)/2) (-(1/2)) (1/2)) = 1 := by
    rw [clamp_of_mem (by norm_num) (le_refl _), jsRound, round_eq,
      show ((1 : ℝ)/2 + 1/2) = 1 by norm_num]
    norm_num
  have hlist : clampWeightsRounded [(1 : ℝ)/2] (1/2) = [1] := by
    simp only [clampWeightsRounded, List.map_cons, List.map_nil, hr]
  refine ⟨by norm_num, hlist, fun h => ?_⟩
  have h1 := h 1 (by rw [hlist]; exact List.mem_singleton_self 1)
  linarith [h1.2]

/-! ### Sharpening of the distribution as the inverse temperature grows -/

lemma clamp_mono {a b : ℝ} (lo hi : ℝ) (h : a ≤ b) : clamp a lo hi ≤ clamp b lo hi :=
  max_le_max (le_refl lo) (min_le_min (le_refl hi) h)

lemma clamp01_of_nonpos {v : ℝ} (h : v ≤ 0) : clamp v 0 1 = 0 := by
  rw [clamp, max_eq_left (le_trans (min_le_right 1 v) h)]

lemma clamp01_of_one_le {v : ℝ} (h : 1 ≤ v) : clamp v 0 1 = 1 := by
  rw [clamp, min_eq_left h, max_eq_right zero_le_one]

/-- C6 (amended): holding everything but `β` fixed, for a candidate
allocation whose satisfaction at `β₁` is strictly below 1, increasing the
inverse temperature can only lower the (unnormalized) Joy score and raise
the (unnormalized) Anger score: the scorer output, before the `ε`-smoothed
probability normalization, sharpens monotonically with `β`.  (The
normalized probabilities themselves are not monotone in `β`, see the
counterexample.) -/
theorem emotionScores_sharpen_with_beta (θ β₁ β₂ : ℝ) (wSelf wOther q : List ℝ)
    (q0 q1 q2 q3 : ℕ) (x : List ℕ) (tau1 tau2 sadBand : ℝ)
    (hx : x ∈ enumerateCandX q0 q1 q2 q3) (hβ : β₁ ≤ β₂)
    (hS : satisfaction θ wSelf wOther x q β₁ (enumerateCandX q0 q1 q2 q3) < 1)
    (ht1 : 0 < tau1) (ht2 : tau2 < 1) :
    (emotionScoresFromS (satisfaction θ wSelf wOther x q β₂ (enumerateCandX q0 q1 q2 q3))
        tau1 tau2 sadBand).Joy ≤
      (emotionScoresFromS (satisfaction θ wSelf wOther x q β₁ (enumerateCandX q0 q1 q2 q3))
        tau1 tau2 sadBand).Joy ∧
    (emotionScoresFromS (satisfaction θ wSelf wOther x q β₁ (enumerateCandX q0 q1 q2 q3))
        tau1 tau2 sadBand).Anger ≤
      (emotionScoresFromS (satisfaction θ wSelf wOther x q β₂ (enumerateCandX q0 q1 q2 q3))
        tau1 tau2 sadBand).Anger := by
  obtain ⟨m, hm, -, hub, hsat1⟩ := satisfaction_umax_spec θ β₁ wSelf wOther q q0 q1 q2 q3 x
  obtain ⟨m2, hm2, -, -, hsat2⟩ := satisfaction_umax_spec θ β₂ wSelf wOther q q0 q1 q2 q3 x
  rw [hm] at hm2
  obtain rfl : m = m2 := Option.some.inj hm2
  have hd : utility θ wSelf wOther (toReal x) q - m ≤ 0 := sub_nonpos.mpr (hub x hx)
  rw [hsat1] at hS
  have hβd : β₁ * (utility θ wSelf wOther (toReal x) q - m) < 0 := Real.exp_lt_one_iff.mp hS
  have hdlt : utility θ wSelf wOther (toReal x) q - m < 0 := by
    rcases lt_or_eq_of_le hd with h | h
    · exact h
    · rw [h, mul_zero] at hβd
      exact absurd hβd (lt_irrefl 0)
  have hSle : satisfaction θ wSelf wOther x q β₂ (enumerateCandX q0 q1 q2 q3) ≤
      satisfaction θ wSelf wOther x q β₁ (enumerateCandX q0 q1 q2 q3) := by
    rw [hsat1, hsat2]
    exact Real.exp_le_exp.mpr (mul_le_mul_of_nonpos_right hβ hdlt.le)
  constructor
  · simp only [emotionScoresFromS]
    exact clamp_mono 0 1 ((div_le_div_right (by linarith)).mpr (by linarith))
  · simp only [emotionScoresFromS]
    exact clamp_mono 0 1 ((div_le_div_right ht1).mpr (by linarith))

/-- Witness for the amended C6 at a concrete input. -/
theorem emotionScores_sharpen_with_beta_witness :
    [1, 0, 0, 0] ∈ enumerateCandX 1 0 0 0 ∧ (1 : ℝ) ≤ 1 ∧
    satisfaction 0 [0, 0, 0, 0] [1, 0, 0, 0] [1, 0, 0, 0] [1, 0, 0, 0] 1
      (enumerateCandX 1 0 0 0) < 1 ∧ (0 : ℝ) < 2/5 ∧ (7/10 : ℝ) < 1 ∧
    ((emotionScoresFromS (satisfaction 0 [0, 0, 0, 0] [1, 0, 0, 0] [1, 0, 0, 0] [1, 0, 0, 0] 1
        (enumerateCandX 1 0 0 0)) (2/5) (7/10) (1/50)).Joy ≤
      (emotionScoresFromS (satisfaction 0 [0, 0, 0, 0] [1, 0, 0, 0] [1, 0, 0, 0] [1, 0, 0, 0] 1
        (enumerateCandX 1 0 0 0)) (2/5) (7/10) (1/50)).Joy ∧
      (emotionScoresFromS (satisfaction 0 [0, 0, 0, 0] [1, 0, 0, 0] [1, 0, 0, 0] [1, 0, 0, 0] 1
        (enumerateCandX 1 0 0 0)) (2/5) (7/10) (1/50)).Anger ≤
        (emotionScoresFromS (satisfaction 0 [0, 0, 0, 0] [1, 0, 0, 0] [1, 0, 0, 0] [1, 0, 0, 0] 1
          (enumerateCandX 1 0 0 0)) (2/5) (7/10) (1/50)).Anger) := by
  have hS : satisfaction 0 [0, 0, 0, 0] [1, 0, 0, 0] [1, 0, 0, 0] [1, 0, 0, 0] 1
      (enumerateCandX 1 0 0 0) < 1 := by
    rw [concrete_sat_eval]
    exact Real.exp_lt_one_iff.mpr (by norm_num)
  exact ⟨by decide, le_refl 1, hS, by norm_num, by norm_num,
    emotionScores_sharpen_with_beta 0 1 1 [0, 0, 0, 0] [1, 0, 0, 0] [1, 0, 0, 0] 1 0 0 0
      [1, 0, 0, 0] (2/5) (7/10) (1/50) (by decide) (le_refl 1) hS (by norm_num) (by norm_num)⟩

lemma concrete_sat_log (c : ℝ) (hc : 0 < c) :
    satisfaction 0 [0, 0, 0, 0] [1, 0, 0, 0] [1, 0, 0, 0] [1, 0, 0, 0] (Real.log c)
      (enumerateCandX 1 0 0 0) = c⁻¹ := by
  rw [concrete_sat_eval, show Real.log c * (0 - 1) = -Real.log c by ring, Real.exp_neg,
    Real.exp_log hc]

lemma scores_at_S1120 : emotionScoresFromS (11/20) (2/5) (7/10) (1/50) = ⟨0, 0, 1, 0⟩ := by
  simp only [emotionScoresFromS, EmotionScores.mk.injEq]
  refine ⟨?_, ?_, ?_, ?_⟩
  · exact clamp01_of_nonpos (by norm_num)
  · rw [show (11/20 : ℝ) - 2/5 = 3/20 by norm_num,
      abs_of_nonneg (by norm_num : (0:ℝ) ≤ 3/20), if_neg (by norm_num)]
  · rw [if_pos ⟨by norm_num, by norm_num⟩,
      show ((2/5 : ℝ) + 7/10) / 2 = 11/20 by norm_num, sub_self, abs_zero, zero_div]
    exact clamp01_of_one_le (by norm_num)
  · exact clamp01_of_nonpos (by norm_num)

lemma scores_at_S0920 : emotionScoresFromS (9/20) (2/5) (7/10) (1/50) = ⟨0, 0, 1/3, 0⟩ := by
  simp only [emotionScoresFromS, EmotionScores.mk.injEq]
  refine ⟨?_, ?_, ?_, ?_⟩
  · exact clamp01_of_nonpos (by norm_num)
  · rw [show (9/20 : ℝ) - 2/5 = 1/20 by norm_num,
      abs_of_nonneg (by norm_num : (0:ℝ) ≤ 1/20), if_neg (by norm_num)]
  · rw [if_pos ⟨by norm_num, by norm_num⟩,
      show ((2/5 : ℝ) + 7/10) / 2 = 11/20 by norm_num,
      show (9/20 : ℝ) - 11/20 = -(1/10) by norm_num, abs_neg,
      abs_of_nonneg (by norm_num : (0:ℝ) ≤ 1/10),
      clamp_of_mem (by norm_num) (by norm_num)]
    norm_num
  · exact clamp01_of_nonpos (by norm_num)

lemma scores_at_S1740 : emotionScoresFromS (17/40) (2/5) (7/10) (1/50) = ⟨0, 0, 1/6, 0⟩ := by
  simp only [emotionScoresFromS, EmotionScores.mk.injEq]
  refine ⟨?_, ?_, ?_, ?_⟩
  · exact clamp01_of_nonpos (by norm_num)
  · rw [show (17/40 : ℝ) - 2/5 = 1/40 by norm_num,
      abs_of_nonneg (by norm_num : (0:ℝ) ≤ 1/40), if_neg (by norm_num)]
  · rw [if_pos ⟨by norm_num, by norm_num⟩,
      show ((2/5 : ℝ) + 7/10) / 2 = 11/20 by norm_num,
      show (17/40 : ℝ) - 11/20 = -(1/8) by norm_num, abs_neg,
      abs_of_nonneg (by norm_num : (0:ℝ) ≤ 1/8),
      clamp_of_mem (by norm_num) (by norm_num)]
    norm_num
  · exact clamp01_of_nonpos (by norm_num)

lemma scores_at_S41100 :
    emotionScoresFromS (41/100) (2/5) (7/10) (1/50) = ⟨0, 1/2, 1/15, 0⟩ := by
  simp only [emotionScoresFromS, EmotionScores.mk.injEq]
  refine ⟨?_, ?_, ?_, ?_⟩
  · exact clamp01_of_nonpos (by norm_num)
  · rw [show (41/100 : ℝ) - 2/5 = 1/100 by norm_num,
      abs_of_nonneg (by norm_num : (0:ℝ) ≤ 1/100), if_pos (by norm_num)]
    norm_num
  · rw [if_pos ⟨by norm_num, by norm_num⟩,
      show ((2/5 : ℝ) + 7/10) / 2 = 11/20 by norm_num,
      show (41/100 : ℝ) - 11/20 = -(14/100) by norm_num, abs_neg,
      abs_of_nonneg (by norm_num : (0:ℝ) ≤ 14/100),
      clamp_of_mem (by norm_num) (by norm_num)]
    norm_num
  · exact clamp01_of_nonpos (by norm_num)

/-- Counterexample to C6 as stated: for the fixed scenario `θ = 0`,
`w_self = [0,0,0,0]`, `w_other = [1,0,0,0]`, `q = [1,0,0,0]`,
`x = [1,0,0,0]`, `tau1 = 2/5`, `tau2 = 7/10`, `sad_band = 1/50`, the
normalized probabilities are not monotone in `β`: with
`β = log(20/11) ≤ log(20/9)` (satisfaction `11/20` and `9/20`, both `< 1`)
the normalized `P_Joy` strictly increases, and with
`β = log(40/17) ≤ log(100/41)` (satisfaction `17/40` and `41/100`) the
normalized `P_Anger` strictly decreases. -/
theorem emotion_probs_beta_not_monotone :
    (Real.log (20/11) ≤ Real.log (20/9) ∧
      satisfaction 0 [0, 0, 0, 0] [1, 0, 0, 0] [1, 0, 0, 0] [1, 0, 0, 0] (Real.log (20/11))
        (enumerateCandX 1 0 0 0) < 1 ∧
      (scoresToProbs (emotionScoresFromS
          (satisfaction 0 [0, 0, 0, 0] [1, 0, 0, 0] [1, 0, 0, 0] [1, 0, 0, 0]
            (Real.log (20/11)) (enumerateCandX 1 0 0 0)) (2/5) (7/10) (1/50))
        epsDefault).Joy <
        (scoresToProbs (emotionScoresFromS
            (satisfaction 0 [0, 0, 0, 0] [1, 0, 0, 0] [1, 0, 0, 0] [1, 0, 0, 0]
              (Real.log (20/9)) (enumerateCandX 1 0 0 0)) (2/5) (7/10) (1/50))
          epsDefault).Joy) ∧
    (Real.log (40/17) ≤ Real.log (100/41) ∧
      satisfaction 0 [0, 0, 0, 0] [1, 0, 0, 0] [1, 0, 0, 0] [1, 0, 0, 0] (Real.log (40/17))
        (enumerateCandX 1 0 0 0) < 1 ∧
      (scoresToProbs (emotionScoresFromS
          (satisfaction 0 [0, 0, 0, 0] [1, 0, 0, 0] [1, 0, 0, 0] [1, 0, 0, 0]
            (Real.log (100/41)) (enumerateCandX 1 0 0 0)) (2/5) (7/10) (1/50))
        epsDefault).Anger <
        (scoresToProbs (emotionScoresFromS
            (satisfaction 0 [0, 0, 0, 0] [1, 0, 0, 0] [1, 0, 0, 0] [1, 0, 0, 0]
              (Real.log (40/17)) (enumerateCandX 1 0 0 0)) (2/5) (7/10) (1/50))
          epsDefault).Anger) := by
  have h1 : satisfaction 0 [0, 0, 0, 0] [1, 0, 0, 0] [1, 0, 0, 0] [1, 0, 0, 0]
      (Real.log (20/11)) (enumerateCandX 1 0 0 0) = 11/20 := by
    rw [concrete_sat_log (20/11) (by norm_num)]
    norm_num
  have h2 : satisfaction 0 [0, 0, 0, 0] [1, 0, 0, 0] [1, 0, 0, 0] [1, 0, 0, 0]
      (Real.log (20/9)) (enumerateCandX 1 0 0 0) = 9/20 := by
    rw [concrete_sat_log (20/9) (by norm_num)]
    norm_num
  have h3 : satisfaction 0 [0, 0, 0, 0] [1, 0, 0, 0] [1, 0, 0, 0] [1, 0, 0, 0]
      (Real.log (40/17)) (enumerateCandX 1 0 0 0) = 17/40 := by
    rw [concrete_sat_log (40/17) (by norm_num)]
    norm_num
  have h4 : satisfaction 0 [0, 0, 0, 0] [1, 0, 0, 0] [1, 0, 0, 0] [1, 0, 0, 0]
      (Real.log (100/41)) (enumerateCandX 1 0 0 0) = 41/100 := by
    rw [concrete_sat_log (100/41) (by norm_num)]
    norm_num
  refine ⟨⟨?_, ?_, ?_⟩, ?_, ?_, ?_⟩
  · exact (Real.log_le_log_iff (by norm_num) (by norm_num)).mpr (by norm_num)
  · rw [h1]; norm_num
  · rw [h1, h2, scores_at_S1120, scores_at_S0920]
    simp only [scoresToProbs]
    rw [show epsDefault = 1/1000000000 by norm_num [epsDefault]]
    norm_num
  · exact (Real.log_le_log_iff (by norm_num) (by norm_num)).mpr (by norm_num)
  · rw [h3]; norm_num
  · rw [h3, h4, scores_at_S1740, scores_at_S41100]
    simp only [scoresToProbs]
    rw [show epsDefault = 1/1000000000 by norm_num [epsDefault]]
    norm_num

end

end LikelihoodPlot
